import Mathlib

/-!
Verification of the KPI collection tool: a shallow embedding of the
sampling scheduler, frequency grouping, and result-persistence layer,
with theorems checking the natural-language specification against it.

Durations are modelled as integer nanosecond counts (Go `time.Duration`
is an int64 nanosecond count); database tables are modelled as lists of
row structures; fallible or panicking operations return `Option`.
-/

namespace KPICollector

/-! ## Configuration (internal/config/types.go) -/

/-- A single KPI query configuration (`config.Query`): unique id, PromQL
expression, optional override sampling frequency. -/
structure Query where
  id : String
  promQuery : String
  sampleFrequency : Option Int
deriving DecidableEq, Repr

/-- `Query.GetEffectiveFrequency`: the override frequency when present and
strictly positive, else the supplied default. -/
def Query.getEffectiveFrequency (q : Query) (defaultFreq : Int) : Int :=
  match q.sampleFrequency with
  | some f => if f > 0 then f else defaultFreq
  | none => defaultFreq

/-! ## Frequency grouping (internal/collector/collector.go, groupKPIsByFrequency)

The Go map from frequency to group is modelled as an association list;
`insertKPIIntoGroup` is the effect of one loop iteration
(`group.Queries = append(group.Queries, kpi); kpisByFreq[freq] = group`). -/

/-- One iteration of the grouping loop: append `q` to the group keyed by
`freq`, creating the group if absent. -/
def insertKPIIntoGroup (m : List (Int × List Query)) (freq : Int) (q : Query) :
    List (Int × List Query) :=
  match m with
  | [] => [(freq, [q])]
  | (f, g) :: rest =>
    if f = freq then (f, g ++ [q]) :: rest
    else (f, g) :: insertKPIIntoGroup rest freq q

/-- `groupKPIsByFrequency`: partition the query list by effective sampling
frequency. -/
def groupKPIsByFrequency (queries : List Query) (defaultFreq : Int) :
    List (Int × List Query) :=
  queries.foldl (fun m q => insertKPIIntoGroup m (q.getEffectiveFrequency defaultFreq) q) []

/-! ## Progress estimate (internal/collector/collector.go, calculateTotalSamples)

`frequency` and `duration` are nanosecond counts. Go truncates each to whole
seconds (`int(d.Seconds())`) before dividing; a zero truncated frequency makes
the Go division panic, modelled as `none`. -/

def nanosPerSecond : Nat := 1000000000

/-- `calculateTotalSamples`: truncate both durations to whole seconds, then
`durationSecs / frequencySecs + 1`; `none` models the division-by-zero
runtime panic when the frequency truncates to zero seconds. -/
def calculateTotalSamples (frequency duration : Nat) : Option Nat :=
  let frequencySecs := frequency / nanosPerSecond
  let durationSecs := duration / nanosPerSecond
  if frequencySecs = 0 then none
  else some (durationSecs / frequencySecs + 1)

/-! ## Error counters (internal/database/sqlite.go + interface.go)

The `query_errors` table is a list of (kpi_id, errors) rows; the upsert
`INSERT ... ON CONFLICT(kpi_id) DO UPDATE SET errors = errors + 1` either
appends a fresh row at count 1 or bumps the unique existing row. -/

/-- `IncrementQueryError`: upsert a counter row for `kpiID`, creating it at 1
or adding 1 to the existing row. -/
def incrementQueryError (tbl : List (String × Nat)) (kpiID : String) :
    List (String × Nat) :=
  match tbl with
  | [] => [(kpiID, 1)]
  | (k, c) :: rest =>
    if k = kpiID then (k, c + 1) :: rest
    else (k, c) :: incrementQueryError rest kpiID

/-- `GetQueryErrorCount`: the stored count for `kpiID`, or 0 when no row
exists (`sql.ErrNoRows`). -/
def getQueryErrorCount (tbl : List (String × Nat)) (kpiID : String) : Nat :=
  match tbl with
  | [] => 0
  | (k, c) :: rest => if k = kpiID then c else getQueryErrorCount rest kpiID

/-- Whether a counter row for `kpiID` exists at all. -/
def hasErrorRow (tbl : List (String × Nat)) (kpiID : String) : Bool :=
  tbl.any (fun p => p.1 == kpiID)

/-- `N` successive calls of `IncrementQueryError` for the same id. -/
def incrementQueryErrorN (tbl : List (String × Nat)) (kpiID : String) :
    Nat → List (String × Nat)
  | 0 => tbl
  | n + 1 => incrementQueryError (incrementQueryErrorN tbl kpiID n) kpiID

/-! ## Cluster table (internal/database/sqlite.go GetOrCreateCluster,
interface.go PostgresDB.GetOrCreateCluster)

A cluster row carries a surrogate id and a unique name; `nextId` models the
autoincrement sequence. -/

structure ClusterRow where
  id : Int
  clusterName : String
deriving DecidableEq, Repr

structure ClustersTable where
  rows : List ClusterRow
  nextId : Int
deriving DecidableEq, Repr

/-- `SELECT id FROM clusters WHERE cluster_name = ?`: id of the first row with
the given name. -/
def selectClusterId (rows : List ClusterRow) (clusterName : String) : Option Int :=
  match rows with
  | [] => none
  | r :: rest =>
    if r.clusterName = clusterName then some r.id else selectClusterId rest clusterName

/-- SQLite `GetOrCreateCluster` (the two-argument variant of sqlite.go):
select by name; if absent, insert a new row and return its autoincrement id. -/
def GetOrCreateCluster (t : ClustersTable) (clusterName : String) :
    Int × ClustersTable :=
  match selectClusterId t.rows clusterName with
  | some cid => (cid, t)
  | none =>
    (t.nextId, ⟨t.rows ++ [⟨t.nextId, clusterName⟩], t.nextId + 1⟩)

/-- Postgres `GetOrCreateCluster`: select by name; if absent, run the
`INSERT ... ON CONFLICT (cluster_name) DO UPDATE ... RETURNING id` upsert,
which inserts a fresh row when no conflicting row exists and otherwise
returns the id of the existing row. -/
def PostgresDB_GetOrCreateCluster (t : ClustersTable) (clusterName : String) :
    Int × ClustersTable :=
  match selectClusterId t.rows clusterName with
  | some cid => (cid, t)
  | none =>
    match selectClusterId t.rows clusterName with
    | some cid => (cid, t)
    | none => (t.nextId, ⟨t.rows ++ [⟨t.nextId, clusterName⟩], t.nextId + 1⟩)

/-- Number of cluster rows carrying a given name. -/
def countClusterName (rows : List ClusterRow) (clusterName : String) : Nat :=
  rows.countP (fun r => r.clusterName == clusterName)

/-! ## SQLite cluster table with category column
(internal/database/interface.go, SQLiteDB)

The later SQLite schema adds a `cluster_type` column and
`SQLiteDB.GetOrCreateCluster` takes a `clusterType` argument; the Postgres
schema and `PostgresDB.GetOrCreateCluster` have no category column or
parameter at all. -/

structure SqliteClusterRow where
  id : Int
  clusterName : String
  clusterType : String
deriving DecidableEq, Repr

structure SqliteClustersTable where
  rows : List SqliteClusterRow
  nextId : Int
deriving DecidableEq, Repr

/-- `SELECT id FROM clusters WHERE cluster_name = ?` on the SQLite table. -/
def selectSqliteClusterId (rows : List SqliteClusterRow) (clusterName : String) :
    Option Int :=
  match rows with
  | [] => none
  | r :: rest =>
    if r.clusterName = clusterName then some r.id
    else selectSqliteClusterId rest clusterName

/-- `UPDATE clusters SET cluster_type = ? WHERE id = ?`. -/
def updateClusterType (rows : List SqliteClusterRow) (cid : Int)
    (clusterType : String) : List SqliteClusterRow :=
  rows.map (fun r =>
    if r.id = cid then
      { r with clusterType := clusterType }
    else r)

/-- `SQLiteDB.GetOrCreateCluster`: select by name; when found, update the
stored cluster_type if the supplied one is non-empty and return the existing
id; otherwise insert a new row carrying the supplied cluster_type. -/
def SQLiteDB_GetOrCreateCluster (t : SqliteClustersTable)
    (clusterName clusterType : String) : Int × SqliteClustersTable :=
  match selectSqliteClusterId t.rows clusterName with
  | some cid =>
    if clusterType ≠ "" then
      (cid, { t with rows := updateClusterType t.rows cid clusterType })
    else (cid, t)
  | none =>
    (t.nextId, ⟨t.rows ++ [⟨t.nextId, clusterName, clusterType⟩], t.nextId + 1⟩)

/-! ## Label serialization (encoding/json marshalling of model.Metric)

`StoreQueryResults` serializes the label map with `json.Marshal`, which sorts
the keys and writes a JSON object with Go string escaping (quote, backslash,
newline, carriage return, tab, other control runes, the HTML runes, and the
line/paragraph separators). The deserializer below is a standard JSON object
reader for such strings. -/

def quoteChar : Char := Char.ofNat 34

def backslashChar : Char := Char.ofNat 92

def lbraceChar : Char := Char.ofNat 123

def rbraceChar : Char := Char.ofNat 125

/-- Lowercase hexadecimal digit for a value below 16. -/
def hexDigitChar (n : Nat) : Char :=
  if n < 10 then Char.ofNat (48 + n) else Char.ofNat (87 + n)

/-- Go encoding/json escaping of one rune inside a string literal. -/
def escapeChar (c : Char) : List Char :=
  if c = quoteChar then [backslashChar, quoteChar]
  else if c = backslashChar then [backslashChar, backslashChar]
  else if c = Char.ofNat 10 then [backslashChar, 'n']
  else if c = Char.ofNat 13 then [backslashChar, 'r']
  else if c = Char.ofNat 9 then [backslashChar, 't']
  else if c.toNat < 32 ∨ c = '<' ∨ c = '>' ∨ c = '&'
      ∨ c.toNat = 8232 ∨ c.toNat = 8233 then
    [backslashChar, 'u',
     hexDigitChar (c.toNat / 4096 % 16), hexDigitChar (c.toNat / 256 % 16),
     hexDigitChar (c.toNat / 16 % 16), hexDigitChar (c.toNat % 16)]
  else [c]

/-- A JSON string literal for `s`, as characters. -/
def renderJSONString (s : String) : List Char :=
  quoteChar :: (s.toList.map escapeChar).flatten ++ [quoteChar]

/-- Insertion into a key-sorted pair list (modelling the sorted key order
that `json.Marshal` uses for maps). -/
def insertPairSorted (p : String × String) :
    List (String × String) → List (String × String)
  | [] => [p]
  | q :: qs => if p.1 ≤ q.1 then p :: q :: qs else q :: insertPairSorted p qs

def sortPairsByKey (m : List (String × String)) : List (String × String) :=
  m.foldr insertPairSorted []

/-- The comma-separated members of a JSON object, as characters. -/
def renderJSONMembers : List (String × String) → List Char
  | [] => []
  | [p] => renderJSONString p.1 ++ ':' :: renderJSONString p.2
  | p :: ps =>
    (renderJSONString p.1 ++ ':' :: renderJSONString p.2)
      ++ ',' :: renderJSONMembers ps

/-- `json.Marshal` of a label map: keys sorted, object syntax, Go string
escaping. -/
def marshalLabels (m : List (String × String)) : String :=
  String.mk (lbraceChar :: renderJSONMembers (sortPairsByKey m) ++ [rbraceChar])

/-- Value of one hexadecimal digit character. -/
def parseHexDigit (c : Char) : Option Nat :=
  if 48 ≤ c.toNat ∧ c.toNat ≤ 57 then some (c.toNat - 48)
  else if 97 ≤ c.toNat ∧ c.toNat ≤ 102 then some (c.toNat - 87)
  else if 65 ≤ c.toNat ∧ c.toNat ≤ 70 then some (c.toNat - 55)
  else none

/-- Read the body of a JSON string literal (after the opening quote) up to
and including the closing quote; returns the unescaped characters and the
remaining input. -/
def parseStringBody : List Char → Option (List Char × List Char)
  | [] => none
  | c :: rest =>
    if c = quoteChar then some ([], rest)
    else if c = backslashChar then
      match rest with
      | [] => none
      | e :: rest2 =>
        if e = quoteChar then
          (parseStringBody rest2).map (fun p => (quoteChar :: p.1, p.2))
        else if e = backslashChar then
          (parseStringBody rest2).map (fun p => (backslashChar :: p.1, p.2))
        else if e = '/' then
          (parseStringBody rest2).map (fun p => ('/' :: p.1, p.2))
        else if e = 'n' then
          (parseStringBody rest2).map (fun p => (Char.ofNat 10 :: p.1, p.2))
        else if e = 'r' then
          (parseStringBody rest2).map (fun p => (Char.ofNat 13 :: p.1, p.2))
        else if e = 't' then
          (parseStringBody rest2).map (fun p => (Char.ofNat 9 :: p.1, p.2))
        else if e = 'b' then
          (parseStringBody rest2).map (fun p => (Char.ofNat 8 :: p.1, p.2))
        else if e = 'f' then
          (parseStringBody rest2).map (fun p => (Char.ofNat 12 :: p.1, p.2))
        else if e = 'u' then
          match rest2 with
          | h1 :: h2 :: h3 :: h4 :: rest3 =>
            match parseHexDigit h1, parseHexDigit h2,
                parseHexDigit h3, parseHexDigit h4 with
            | some n1, some n2, some n3, some n4 =>
              let n := n1 * 4096 + n2 * 256 + n3 * 16 + n4
              if n.isValidChar then
                (parseStringBody rest3).map (fun p => (Char.ofNat n :: p.1, p.2))
              else none
            | _, _, _, _ => none
          | _ => none
        else none
    else (parseStringBody rest).map (fun p => (c :: p.1, p.2))
termination_by l => l.length

/-- Read a JSON string literal including its opening quote. -/
def parseJSONString (l : List Char) : Option (List Char × List Char) :=
  match l with
  | [] => none
  | c :: rest => if c = quoteChar then parseStringBody rest else none

/-- Read one or more `"key":"value"` members followed by the closing brace
of the object (fuelled; one unit of fuel per member). -/
def parseJSONMembers : Nat → List Char → Option (List (String × String) × List Char)
  | 0, _ => none
  | fuel + 1, l =>
    match parseJSONString l with
    | none => none
    | some (k, r1) =>
      match r1 with
      | [] => none
      | c :: r2 =>
        if c = ':' then
          match parseJSONString r2 with
          | none => none
          | some (v, r3) =>
            match r3 with
            | [] => none
            | c2 :: r4 =>
              if c2 = ',' then
                match parseJSONMembers fuel r4 with
                | none => none
                | some (ms, r5) => some ((String.mk k, String.mk v) :: ms, r5)
              else if c2 = rbraceChar then
                some ([(String.mk k, String.mk v)], r4)
              else none
        else none

/-- Deserialize a JSON object of string keys and string values, consuming
the whole input. -/
def parseLabels (s : String) : Option (List (String × String)) :=
  match s.toList with
  | [] => none
  | c :: rest =>
    if c = lbraceChar then
      match rest with
      | [] => none
      | c2 :: rest2 =>
        if c2 = rbraceChar then (if rest2.isEmpty then some [] else none)
        else
          match parseJSONMembers (c2 :: rest2).length (c2 :: rest2) with
          | some (ms, r) => if r.isEmpty then some ms else none
          | none => none
    else none

/-! ## Prometheus result values and sample storage
(internal/database/sqlite.go StoreQueryResults,
interface.go PostgresDB.StoreQueryResults) -/

/-- One labelled sample of a vector result (`model.Sample`): label set,
numeric value (a float64 payload stored verbatim, modelled as a rational)
and source timestamp in milliseconds. -/
structure PromSample where
  metric : List (String × String)
  value : Rat
  timestampMs : Int
deriving DecidableEq, Repr

/-- The `model.Value` result variants (Vector, Matrix, Scalar, String). The
non-vector payloads are irrelevant here: `StoreQueryResults` never reads
them, its type assertion fails first. -/
inductive PromValue where
  | vector (samples : List PromSample)
  | matrix
  | scalar
  | strValue
deriving DecidableEq, Repr

/-- One row of the `query_results` table. -/
structure QueryResultRow where
  kpiId : String
  metricValue : Rat
  timestampValue : Rat
  clusterId : Int
  metricLabels : String
deriving DecidableEq, Repr

/-- `StoreQueryResults`: the unchecked type assertion `result.(model.Vector)`
makes every non-vector result a runtime crash, modelled as `none`; a vector
result appends one row per sample, with `timestamp_value = ms / 1000` and the
label set serialized by `json.Marshal`. -/
def StoreQueryResults (rows : List QueryResultRow) (clusterID : Int)
    (queryID : String) (result : PromValue) : Option (List QueryResultRow) :=
  match result with
  | .vector samples =>
    some (rows ++ samples.map (fun s =>
      ⟨queryID, s.value, (s.timestampMs : Rat) / 1000, clusterID,
        marshalLabels s.metric⟩))
  | _ => none

/-! ## Query execution (the prometheus package: RunQueries, executeQuery)

The backend call `v1api.Query(ctx, promQuery, now)` is abstracted as an
environment mapping the PromQL text to either an error or a result value. -/

/-- The database state touched by one tick: error counters and result rows. -/
structure DBState where
  queryErrors : List (String × Nat)
  queryResults : List QueryResultRow
deriving DecidableEq, Repr

/-- `executeQuery`: on backend error, increment the error counter for the
query id and write nothing; on success, store the result rows. `none` models
the crash of a non-vector store. -/
def executeQuery (env : String → Except String PromValue) (st : DBState)
    (clusterID : Int) (q : Query) : Option DBState :=
  match env q.promQuery with
  | .error _ =>
    some { st with queryErrors := incrementQueryError st.queryErrors q.id }
  | .ok result =>
    match StoreQueryResults st.queryResults clusterID q.id result with
    | some newRows => some { st with queryResults := newRows }
    | none => none

/-- `RunQueries` over one tick: execute every query of the batch in order. -/
def RunQueries (env : String → Except String PromValue) (st : DBState)
    (clusterID : Int) : List Query → Option DBState
  | [] => some st
  | q :: rest =>
    match executeQuery env st clusterID q with
    | some st2 => RunQueries env st2 clusterID rest
    | none => none

/-! ## Scheduler lifecycle
(internal/collector/collector.go Run, startKPIGoroutines, shutdown)

One controller plus one task per frequency group. A task loops inside
`runKPIGroupLoop` and leaves the loop only through the `ctx.Done()` branch;
`shutdown` calls `cancel()` and then `wg.Wait()`, and `wg.Wait` returns only
once every spawned task has run its deferred `wg.Done()`, i.e. has exited. -/

inductive TaskPhase where
  | running
  | exited
deriving DecidableEq, Repr

structure RunState where
  cancelled : Bool
  returned : Bool
  tasks : List TaskPhase
deriving DecidableEq, Repr

inductive RunEvent where
  | taskWrite (i : Nat)
  | taskExit (i : Nat)
  | cancel
  | ret
deriving DecidableEq, Repr

/-- One step of the scheduler system: a running task may perform a storage
write; a running task exits once the shared context is cancelled; the
controller cancels the shared context once; the controller returns only
after cancelling and only when every task has exited (`wg.Wait`). -/
inductive RunStep : RunState → RunEvent → RunState → Prop where
  | taskWrite (s : RunState) (i : Nat)
      (h : s.tasks.get? i = some TaskPhase.running) :
      RunStep s (.taskWrite i) s
  | taskExit (s : RunState) (i : Nat)
      (h : s.tasks.get? i = some TaskPhase.running)
      (hc : s.cancelled = true) :
      RunStep s (.taskExit i) { s with tasks := s.tasks.set i TaskPhase.exited }
  | cancel (s : RunState) (h : s.cancelled = false) :
      RunStep s .cancel { s with cancelled := true }
  | ret (s : RunState) (hc : s.cancelled = true)
      (hall : ∀ p ∈ s.tasks, p = TaskPhase.exited)
      (hr : s.returned = false) :
      RunStep s .ret { s with returned := true }

/-- A sequence of steps with its event list. -/
inductive RunTrace : RunState → List RunEvent → RunState → Prop where
  | nil (s : RunState) : RunTrace s [] s
  | cons (s1 s2 s3 : RunState) (e : RunEvent) (es : List RunEvent)
      (hstep : RunStep s1 e s2) (htrace : RunTrace s2 es s3) :
      RunTrace s1 (e :: es) s3

/-- The state right after `startKPIGoroutines`: nothing cancelled, `Run` has
not returned, all `n` per-group tasks running. -/
def initRunState (n : Nat) : RunState :=
  ⟨false, false, List.replicate n TaskPhase.running⟩

/-- Invariant tying `returned` to the drain: once the controller has
returned, the context was cancelled and every task has exited. -/
def RunStateWF (s : RunState) : Prop :=
  s.returned = true → (s.cancelled = true ∧ ∀ p ∈ s.tasks, p = TaskPhase.exited)

/-! ## Lemmas about frequency grouping -/

theorem insertKPIIntoGroup_keys (m : List (Int × List Query)) (f : Int) (q : Query) :
    (insertKPIIntoGroup m f q).map Prod.fst
      = if f ∈ m.map Prod.fst then m.map Prod.fst
        else m.map Prod.fst ++ [f] := by
  induction m with
  | nil => simp [insertKPIIntoGroup]
  | cons p rest ih =>
    obtain ⟨k, g⟩ := p
    by_cases h : k = f
    · simp [insertKPIIntoGroup, h]
    · simp only [insertKPIIntoGroup, if_neg h, List.map_cons, ih, List.mem_cons]
      have hne : ¬(f = k) := fun hf => h hf.symm
      by_cases hf : f ∈ rest.map Prod.fst <;> simp [hf, hne]

theorem insertKPIIntoGroup_keys_nodup (m : List (Int × List Query)) (f : Int)
    (q : Query) (hm : (m.map Prod.fst).Nodup) :
    ((insertKPIIntoGroup m f q).map Prod.fst).Nodup := by
  rw [insertKPIIntoGroup_keys]
  by_cases hf : f ∈ m.map Prod.fst
  · simpa [hf] using hm
  · simp only [if_neg hf]
    simpa [List.nodup_append, hf] using hm

theorem insertKPIIntoGroup_join_perm (m : List (Int × List Query)) (f : Int)
    (q : Query) :
    ((insertKPIIntoGroup m f q).map Prod.snd).flatten.Perm
      (q :: (m.map Prod.snd).flatten) := by
  induction m with
  | nil => simp [insertKPIIntoGroup]
  | cons p rest ih =>
    obtain ⟨k, g⟩ := p
    by_cases h : k = f
    · simp only [insertKPIIntoGroup, if_pos h, List.map_cons, List.flatten_cons]
      have heq : (g ++ [q]) ++ (rest.map Prod.snd).flatten
          = g ++ (q :: (rest.map Prod.snd).flatten) := by simp
      rw [heq]
      exact List.perm_middle
    · simp only [insertKPIIntoGroup, if_neg h, List.map_cons, List.flatten_cons]
      exact (ih.append_left g).trans List.perm_middle

theorem insertKPIIntoGroup_wf (m : List (Int × List Query)) (d : Int) (f : Int)
    (q : Query) (hq : q.getEffectiveFrequency d = f)
    (hm : ∀ p ∈ m, ∀ x ∈ p.2, x.getEffectiveFrequency d = p.1) :
    ∀ p ∈ insertKPIIntoGroup m f q, ∀ x ∈ p.2,
      x.getEffectiveFrequency d = p.1 := by
  induction m with
  | nil =>
    intro p hp x hx
    simp only [insertKPIIntoGroup, List.mem_singleton] at hp
    subst hp
    simp only [List.mem_singleton] at hx
    subst hx
    exact hq
  | cons p0 rest ih =>
    obtain ⟨k, g⟩ := p0
    by_cases h : k = f
    · intro p hp x hx
      simp only [insertKPIIntoGroup, if_pos h, List.mem_cons] at hp
      rcases hp with hp | hp
      · subst hp
        simp only [List.mem_append, List.mem_singleton] at hx
        rcases hx with hx | hx
        · exact hm (k, g) (List.mem_cons_self _ _) x hx
        · subst hx
          rw [hq, h]
      · exact hm p (List.mem_cons_of_mem _ hp) x hx
    · intro p hp x hx
      simp only [insertKPIIntoGroup, if_neg h, List.mem_cons] at hp
      rcases hp with hp | hp
      · subst hp
        exact hm (k, g) (List.mem_cons_self _ _) x hx
      · exact ih (fun p1 hp1 => hm p1 (List.mem_cons_of_mem _ hp1)) p hp x hx

theorem grouping_foldl_keys_nodup (qs : List Query) (d : Int) :
    ∀ m : List (Int × List Query), (m.map Prod.fst).Nodup →
    ((qs.foldl
        (fun m q => insertKPIIntoGroup m (q.getEffectiveFrequency d) q)
        m).map Prod.fst).Nodup := by
  induction qs with
  | nil => intro m hm; simpa using hm
  | cons q rest ih =>
    intro m hm
    simp only [List.foldl_cons]
    exact ih _ (insertKPIIntoGroup_keys_nodup m _ q hm)

theorem grouping_foldl_join_perm (qs : List Query) (d : Int) :
    ∀ m : List (Int × List Query),
    ((qs.foldl
        (fun m q => insertKPIIntoGroup m (q.getEffectiveFrequency d) q)
        m).map Prod.snd).flatten.Perm ((m.map Prod.snd).flatten ++ qs) := by
  induction qs with
  | nil => intro m; simp
  | cons q rest ih =>
    intro m
    simp only [List.foldl_cons]
    have h1 := ih (insertKPIIntoGroup m (q.getEffectiveFrequency d) q)
    have h2 := insertKPIIntoGroup_join_perm m (q.getEffectiveFrequency d) q
    have h3 := h1.trans (h2.append_right rest)
    refine h3.trans ?_
    exact List.perm_middle.symm.trans (by simp)

theorem grouping_foldl_wf (qs : List Query) (d : Int) :
    ∀ m : List (Int × List Query),
    (∀ p ∈ m, ∀ x ∈ p.2, x.getEffectiveFrequency d = p.1) →
    ∀ p ∈ qs.foldl
        (fun m q => insertKPIIntoGroup m (q.getEffectiveFrequency d) q) m,
      ∀ x ∈ p.2, x.getEffectiveFrequency d = p.1 := by
  induction qs with
  | nil => intro m hm; simpa using hm
  | cons q rest ih =>
    intro m hm
    simp only [List.foldl_cons]
    exact ih _ (insertKPIIntoGroup_wf m d _ q rfl hm)

theorem groups_eq_of_nodup_keys {m : List (Int × List Query)}
    (h : (m.map Prod.fst).Nodup) {k : Int} {g1 g2 : List Query}
    (h1 : (k, g1) ∈ m) (h2 : (k, g2) ∈ m) : g1 = g2 := by
  induction m with
  | nil => simp at h1
  | cons p rest ih =>
    obtain ⟨k0, g0⟩ := p
    simp only [List.map_cons, List.nodup_cons] at h
    simp only [List.mem_cons, Prod.mk.injEq] at h1 h2
    rcases h1 with ⟨hk1, hg1⟩ | h1
    · rcases h2 with ⟨hk2, hg2⟩ | h2
      · rw [hg1, hg2]
      · exfalso
        apply h.1
        rw [← hk1]
        exact List.mem_map_of_mem Prod.fst h2
    · rcases h2 with ⟨hk2, hg2⟩ | h2
      · exfalso
        apply h.1
        rw [← hk2]
        exact List.mem_map_of_mem Prod.fst h1
      · exact ih h.2 h1 h2

/-! ## Lemmas about error counters -/

theorem getQueryErrorCount_increment (tbl : List (String × Nat)) (kpiID : String) :
    getQueryErrorCount (incrementQueryError tbl kpiID) kpiID
      = getQueryErrorCount tbl kpiID + 1 := by
  induction tbl with
  | nil => simp [incrementQueryError, getQueryErrorCount]
  | cons p rest ih =>
    obtain ⟨k, c⟩ := p
    by_cases h : k = kpiID <;>
      simp [incrementQueryError, getQueryErrorCount, h, ih]

theorem hasErrorRow_increment (tbl : List (String × Nat)) (kpiID : String) :
    hasErrorRow (incrementQueryError tbl kpiID) kpiID = true := by
  induction tbl with
  | nil => simp [incrementQueryError, hasErrorRow]
  | cons p rest ih =>
    obtain ⟨k, c⟩ := p
    by_cases h : k = kpiID <;>
      simp_all [incrementQueryError, hasErrorRow, h]

theorem getQueryErrorCount_eq_zero_of_no_row (tbl : List (String × Nat))
    (kpiID : String) (h : hasErrorRow tbl kpiID = false) :
    getQueryErrorCount tbl kpiID = 0 := by
  induction tbl with
  | nil => simp [getQueryErrorCount]
  | cons p rest ih =>
    obtain ⟨k, c⟩ := p
    simp only [hasErrorRow, List.any_cons, Bool.or_eq_false_iff] at h
    have hk : ¬(k = kpiID) := by
      intro hk
      simp [hk] at h
    simp only [getQueryErrorCount, if_neg hk]
    exact ih h.2

theorem getQueryErrorCount_incrementN (tbl : List (String × Nat)) (kpiID : String)
    (n : Nat) :
    getQueryErrorCount (incrementQueryErrorN tbl kpiID n) kpiID
      = getQueryErrorCount tbl kpiID + n := by
  induction n with
  | zero => simp [incrementQueryErrorN]
  | succ m ih =>
    simp only [incrementQueryErrorN, getQueryErrorCount_increment, ih]
    omega

/-! ## Lemmas about the cluster table -/

theorem countClusterName_eq_zero_of_select_none (rows : List ClusterRow)
    (n : String) (h : selectClusterId rows n = none) :
    countClusterName rows n = 0 := by
  induction rows with
  | nil => simp [countClusterName]
  | cons r rest ih =>
    simp only [selectClusterId] at h
    by_cases hr : r.clusterName = n
    · simp [hr] at h
    · simp only [if_neg hr] at h
      simpa [countClusterName, hr] using ih h

theorem countClusterName_pos_of_select_some (rows : List ClusterRow)
    (n : String) (cid : Int) (h : selectClusterId rows n = some cid) :
    1 ≤ countClusterName rows n := by
  induction rows with
  | nil => simp [selectClusterId] at h
  | cons r rest ih =>
    simp only [selectClusterId] at h
    by_cases hr : r.clusterName = n
    · simp [countClusterName, hr]
    · simp only [if_neg hr] at h
      have := ih h
      simpa [countClusterName, hr] using this

theorem selectClusterId_append_self (rows : List ClusterRow) (n : String)
    (i : Int) (h : selectClusterId rows n = none) :
    selectClusterId (rows ++ [⟨i, n⟩]) n = some i := by
  induction rows with
  | nil => simp [selectClusterId]
  | cons r rest ih =>
    simp only [selectClusterId] at h ⊢
    by_cases hr : r.clusterName = n
    · simp [hr] at h
    · simp only [if_neg hr] at h ⊢
      exact ih h

theorem countClusterName_append (rows : List ClusterRow) (n : String) (i : Int) :
    countClusterName (rows ++ [⟨i, n⟩]) n = countClusterName rows n + 1 := by
  simp [countClusterName]

/-! ## Lemmas about label serialization -/

theorem string_mk_toList (s : String) : String.mk s.toList = s := by
  cases s
  rfl

theorem string_toList_mk (l : List Char) : (String.mk l).toList = l := rfl

theorem parseHexDigit_hexDigitChar : ∀ n < 16, parseHexDigit (hexDigitChar n) = some n := by
  decide

theorem parseStringBody_quote (l : List Char) :
    parseStringBody (quoteChar :: l) = some ([], l) := by
  rw [parseStringBody.eq_def]
  simp

theorem parseStringBody_escQuote (l : List Char) :
    parseStringBody (backslashChar :: quoteChar :: l)
      = (parseStringBody l).map (fun p => (quoteChar :: p.1, p.2)) := by
  rw [parseStringBody.eq_def]
  simp [show ¬(backslashChar = quoteChar) from by decide]

theorem parseStringBody_escBackslash (l : List Char) :
    parseStringBody (backslashChar :: backslashChar :: l)
      = (parseStringBody l).map (fun p => (backslashChar :: p.1, p.2)) := by
  rw [parseStringBody.eq_def]
  simp [show ¬(backslashChar = quoteChar) from by decide]

theorem parseStringBody_escN (l : List Char) :
    parseStringBody (backslashChar :: 'n' :: l)
      = (parseStringBody l).map (fun p => (Char.ofNat 10 :: p.1, p.2)) := by
  rw [parseStringBody.eq_def]
  simp [show ¬(backslashChar = quoteChar) from by decide,
    show ¬('n' = quoteChar) from by decide,
    show ¬('n' = backslashChar) from by decide,
    show ¬('n' = '/') from by decide]

theorem parseStringBody_escR (l : List Char) :
    parseStringBody (backslashChar :: 'r' :: l)
      = (parseStringBody l).map (fun p => (Char.ofNat 13 :: p.1, p.2)) := by
  rw [parseStringBody.eq_def]
  simp [show ¬(backslashChar = quoteChar) from by decide,
    show ¬('r' = quoteChar) from by decide,
    show ¬('r' = backslashChar) from by decide,
    show ¬('r' = '/') from by decide,
    show ¬('r' = 'n') from by decide]

theorem parseStringBody_escT (l : List Char) :
    parseStringBody (backslashChar :: 't' :: l)
      = (parseStringBody l).map (fun p => (Char.ofNat 9 :: p.1, p.2)) := by
  rw [parseStringBody.eq_def]
  simp [show ¬(backslashChar = quoteChar) from by decide,
    show ¬('t' = quoteChar) from by decide,
    show ¬('t' = backslashChar) from by decide,
    show ¬('t' = '/') from by decide,
    show ¬('t' = 'n') from by decide,
    show ¬('t' = 'r') from by decide]

theorem parseStringBody_escU (c : Char) (hlt : c.toNat < 65536) (l : List Char) :
    parseStringBody (backslashChar :: 'u'
        :: hexDigitChar (c.toNat / 4096 % 16) :: hexDigitChar (c.toNat / 256 % 16)
        :: hexDigitChar (c.toNat / 16 % 16) :: hexDigitChar (c.toNat % 16) :: l)
      = (parseStringBody l).map (fun p => (c :: p.1, p.2)) := by
  have e1 := parseHexDigit_hexDigitChar (c.toNat / 4096 % 16) (Nat.mod_lt _ (by norm_num))
  have e2 := parseHexDigit_hexDigitChar (c.toNat / 256 % 16) (Nat.mod_lt _ (by norm_num))
  have e3 := parseHexDigit_hexDigitChar (c.toNat / 16 % 16) (Nat.mod_lt _ (by norm_num))
  have e4 := parseHexDigit_hexDigitChar (c.toNat % 16) (Nat.mod_lt _ (by norm_num))
  have hn : c.toNat / 4096 % 16 * 4096 + c.toNat / 256 % 16 * 256
      + c.toNat / 16 % 16 * 16 + c.toNat % 16 = c.toNat := by omega
  have hvalid : (c.toNat).isValidChar := c.valid
  rw [parseStringBody.eq_def]
  simp only [show ¬(backslashChar = quoteChar) from by decide, if_neg, if_pos,
    show (backslashChar = backslashChar) from rfl,
    show ¬('u' = quoteChar) from by decide,
    show ¬('u' = backslashChar) from by decide,
    show ¬('u' = '/') from by decide,
    show ¬('u' = 'n') from by decide,
    show ¬('u' = 'r') from by decide,
    show ¬('u' = 't') from by decide,
    show ¬('u' = 'b') from by decide,
    show ¬('u' = 'f') from by decide,
    show ('u' = 'u') from rfl,
    ite_true, ite_false, e1, e2, e3, e4]
  simp only [hn, hvalid, ite_true, Char.ofNat_toNat, if_pos]

theorem parseStringBody_plain (c : Char) (l : List Char)
    (h1 : ¬(c = quoteChar)) (h2 : ¬(c = backslashChar)) :
    parseStringBody (c :: l)
      = (parseStringBody l).map (fun p => (c :: p.1, p.2)) := by
  rw [parseStringBody.eq_def]
  simp [h1, h2]

theorem parseStringBody_escapeChar (c : Char) (l : List Char) :
    parseStringBody (escapeChar c ++ l)
      = (parseStringBody l).map (fun p => (c :: p.1, p.2)) := by
  by_cases hq : c = quoteChar
  · subst hq
    unfold escapeChar
    rw [if_pos rfl]
    exact parseStringBody_escQuote l
  · by_cases hb : c = backslashChar
    · subst hb
      unfold escapeChar
      rw [if_neg (by decide), if_pos rfl]
      exact parseStringBody_escBackslash l
    · by_cases h10 : c = Char.ofNat 10
      · subst h10
        unfold escapeChar
        rw [if_neg (by decide), if_neg (by decide), if_pos rfl]
        exact parseStringBody_escN l
      · by_cases h13 : c = Char.ofNat 13
        · subst h13
          unfold escapeChar
          rw [if_neg (by decide), if_neg (by decide), if_neg (by decide),
            if_pos rfl]
          exact parseStringBody_escR l
        · by_cases h9 : c = Char.ofNat 9
          · subst h9
            unfold escapeChar
            rw [if_neg (by decide), if_neg (by decide), if_neg (by decide),
              if_neg (by decide), if_pos rfl]
            exact parseStringBody_escT l
          · by_cases hcond : c.toNat < 32 ∨ c = '<' ∨ c = '>' ∨ c = '&'
                ∨ c.toNat = 8232 ∨ c.toNat = 8233
            · unfold escapeChar
              rw [if_neg hq, if_neg hb, if_neg h10, if_neg h13, if_neg h9,
                if_pos hcond]
              have hlt : c.toNat < 65536 := by
                rcases hcond with h | h | h | h | h | h
                · omega
                · subst h; decide
                · subst h; decide
                · subst h; decide
                · omega
                · omega
              exact parseStringBody_escU c hlt l
            · unfold escapeChar
              rw [if_neg hq, if_neg hb, if_neg h10, if_neg h13, if_neg h9,
                if_neg hcond]
              exact parseStringBody_plain c l hq hb

theorem parseStringBody_render (s : List Char) (l : List Char) :
    parseStringBody ((s.map escapeChar).flatten ++ quoteChar :: l)
      = some (s, l) := by
  induction s with
  | nil => simpa using parseStringBody_quote l
  | cons c cs ih =>
    rw [List.map_cons, List.flatten_cons, List.append_assoc,
      parseStringBody_escapeChar, ih]
    rfl

theorem parseJSONString_render (s : String) (l : List Char) :
    parseJSONString (renderJSONString s ++ l) = some (s.toList, l) := by
  unfold renderJSONString parseJSONString
  simp only [List.cons_append, List.append_assoc, List.singleton_append,
    List.nil_append, eq_self_iff_true, if_true]
  exact parseStringBody_render s.toList l

theorem renderJSONMembers_cons_head (p : String × String)
    (ps : List (String × String)) :
    ∃ t, renderJSONMembers (p :: ps) = quoteChar :: t := by
  cases ps with
  | nil => exact ⟨_, rfl⟩
  | cons q qs => exact ⟨_, rfl⟩

theorem renderJSONMembers_length (ps : List (String × String)) :
    ps.length ≤ (renderJSONMembers ps).length := by
  induction ps with
  | nil => simp [renderJSONMembers]
  | cons p ps ih =>
    cases ps with
    | nil =>
      simp only [renderJSONMembers, List.length_append, List.length_cons,
        List.length_nil]
      omega
    | cons q qs =>
      simp only [renderJSONMembers, List.length_append, List.length_cons] at ih ⊢
      omega

theorem parseJSONMembers_render (ps : List (String × String)) :
    ∀ (l : List Char) (fuel : Nat), ps ≠ [] → ps.length ≤ fuel →
    parseJSONMembers fuel (renderJSONMembers ps ++ rbraceChar :: l)
      = some (ps, l) := by
  induction ps with
  | nil => intro l fuel h; exact absurd rfl h
  | cons p ps ih =>
    intro l fuel _ hfuel
    obtain ⟨k, v⟩ := p
    cases fuel with
    | zero => simp at hfuel
    | succ f =>
      cases ps with
      | nil =>
        simp only [renderJSONMembers, List.append_assoc, List.cons_append]
        simp only [parseJSONMembers, parseJSONString_render, string_mk_toList]
        simp [show ¬(rbraceChar = ',') from by decide]
      | cons p2 ps2 =>
        simp only [renderJSONMembers, List.append_assoc, List.cons_append]
        simp only [parseJSONMembers, parseJSONString_render, string_mk_toList]
        rw [ih l f (by simp) (by simp at hfuel ⊢; omega)]
        simp

theorem parseLabels_render_members (ps : List (String × String)) (hne : ps ≠ []) :
    parseLabels (String.mk (lbraceChar :: renderJSONMembers ps ++ [rbraceChar]))
      = some ps := by
  cases ps with
  | nil => exact absurd rfl hne
  | cons p rest =>
    rcases renderJSONMembers_cons_head p rest with ⟨t, ht⟩
    have hfuel : (p :: rest).length
        ≤ (renderJSONMembers (p :: rest) ++ [rbraceChar]).length := by
      have h1 := renderJSONMembers_length (p :: rest)
      simp only [List.length_append, List.length_cons, List.length_nil] at h1 ⊢
      omega
    have hres := parseJSONMembers_render (p :: rest) []
      ((renderJSONMembers (p :: rest) ++ [rbraceChar]).length)
      (by simp) hfuel
    simp only [parseLabels, string_toList_mk, ht, List.cons_append,
      eq_self_iff_true, if_true,
      if_neg (show ¬(quoteChar = rbraceChar) from by decide)]
    rw [← List.cons_append, ← ht, hres]
    simp

theorem insertPairSorted_perm (p : String × String)
    (l : List (String × String)) :
    (insertPairSorted p l).Perm (p :: l) := by
  induction l with
  | nil => exact List.Perm.refl _
  | cons q qs ih =>
    by_cases h : p.1 ≤ q.1
    · simp [insertPairSorted, h]
    · simp only [insertPairSorted, if_neg h]
      exact (ih.cons q).trans (List.Perm.swap p q qs)

theorem sortPairsByKey_perm (m : List (String × String)) :
    (sortPairsByKey m).Perm m := by
  induction m with
  | nil => exact List.Perm.refl _
  | cons p ps ih =>
    have h1 : sortPairsByKey (p :: ps) = insertPairSorted p (sortPairsByKey ps) :=
      rfl
    rw [h1]
    exact (insertPairSorted_perm p _).trans (ih.cons p)

theorem parseLabels_marshalLabels (m : List (String × String)) :
    parseLabels (marshalLabels m) = some (sortPairsByKey m) := by
  cases hs : sortPairsByKey m with
  | nil =>
    rw [marshalLabels, hs]
    decide
  | cons p rest =>
    rw [marshalLabels, hs]
    exact parseLabels_render_members (p :: rest) (by simp)

/-! ## Lemmas about the SQLite cluster table with category -/

theorem selectSqliteClusterId_mem (rows : List SqliteClusterRow) (n : String)
    (cid : Int) (h : selectSqliteClusterId rows n = some cid) :
    ∃ r ∈ rows, r.id = cid ∧ r.clusterName = n := by
  induction rows with
  | nil => simp [selectSqliteClusterId] at h
  | cons r rest ih =>
    simp only [selectSqliteClusterId] at h
    by_cases hr : r.clusterName = n
    · rw [if_pos hr] at h
      injection h with h
      exact ⟨r, List.mem_cons_self _ _, h, hr⟩
    · rw [if_neg hr] at h
      rcases ih h with ⟨r0, hr0, hid, hn⟩
      exact ⟨r0, List.mem_cons_of_mem _ hr0, hid, hn⟩

theorem updateClusterType_mem (rows : List SqliteClusterRow) (cid : Int)
    (ct : String) (r : SqliteClusterRow) (hr : r ∈ rows) (hid : r.id = cid) :
    { r with clusterType := ct } ∈ updateClusterType rows cid ct := by
  unfold updateClusterType
  have h := List.mem_map_of_mem
    (fun r => if r.id = cid then { r with clusterType := ct } else r) hr
  simpa [hid] using h

theorem updateClusterType_all (rows : List SqliteClusterRow) (cid : Int)
    (ct : String) :
    ∀ x ∈ updateClusterType rows cid ct, x.id = cid → x.clusterType = ct := by
  intro x hx hid
  unfold updateClusterType at hx
  rcases List.mem_map.mp hx with ⟨r, hr, hfx⟩
  by_cases h : r.id = cid
  · rw [if_pos h] at hfx
    rw [← hfx]
  · rw [if_neg h] at hfx
    rw [← hfx] at hid
    exact absurd hid h

/-! ## Lemmas about the scheduler lifecycle -/

theorem runStep_wf (s1 s2 : RunState) (e : RunEvent) (h : RunStep s1 e s2)
    (hwf : RunStateWF s1) : RunStateWF s2 := by
  cases h with
  | taskWrite i hi => exact hwf
  | taskExit i hi hc =>
    intro hr
    rcases hwf hr with ⟨hc2, hall⟩
    have hmem := hall _ (List.get?_mem hi)
    exact absurd hmem (by decide)
  | cancel h0 =>
    intro hr
    rcases hwf hr with ⟨hc2, hall⟩
    rw [hc2] at h0
    exact Bool.noConfusion h0
  | ret hc hall hr0 =>
    intro _
    exact ⟨hc, hall⟩

theorem runTrace_wf (s1 : RunState) (es : List RunEvent) (s2 : RunState)
    (h : RunTrace s1 es s2) (hwf : RunStateWF s1) : RunStateWF s2 := by
  induction h with
  | nil s => exact hwf
  | cons sa sb sc e es hstep htrace ih => exact ih (runStep_wf _ _ _ hstep hwf)

theorem runTrace_returned_nil (s1 : RunState) (es : List RunEvent)
    (s2 : RunState) (h : RunTrace s1 es s2) (hr : s1.returned = true)
    (hwf : RunStateWF s1) : es = [] := by
  cases h with
  | nil => rfl
  | cons sa sb sc e es hstep htrace =>
    exfalso
    rcases hwf hr with ⟨hc, hall⟩
    cases hstep with
    | taskWrite i hi =>
      exact absurd (hall _ (List.get?_mem hi)) (by decide)
    | taskExit i hi hc2 =>
      exact absurd (hall _ (List.get?_mem hi)) (by decide)
    | cancel h0 =>
      rw [hc] at h0
      exact Bool.noConfusion h0
    | ret hc2 hall2 hr0 =>
      rw [hr] at hr0
      exact Bool.noConfusion hr0

theorem runTrace_ret_last (s1 : RunState) (es : List RunEvent) (s2 : RunState)
    (h : RunTrace s1 es s2) :
    RunStateWF s1 → ∀ i, es.get? i = some RunEvent.ret → es.length = i + 1 := by
  induction h with
  | nil s =>
    intro hwf i hi
    simp at hi
  | cons sa sb sc e es hstep htrace ih =>
    intro hwf i hi
    have hwfb : RunStateWF sb := runStep_wf _ _ _ hstep hwf
    cases i with
    | zero =>
      have he : e = RunEvent.ret := by
        simpa using hi
      subst he
      cases hstep with
      | ret hc hall hr0 =>
        have hnil : es = [] :=
          runTrace_returned_nil _ es sc htrace rfl hwfb
        subst hnil
        rfl
    | succ j =>
      have hj : es.get? j = some RunEvent.ret := by simpa using hi
      have := ih hwfb j hj
      simp only [List.length_cons, this]

theorem runTrace_cancel_before_ret (s1 : RunState) (es : List RunEvent)
    (s2 : RunState) (h : RunTrace s1 es s2) :
    s1.cancelled = false → ∀ i, es.get? i = some RunEvent.ret →
    ∃ j, j < i ∧ es.get? j = some RunEvent.cancel := by
  induction h with
  | nil s =>
    intro hc i hi
    simp at hi
  | cons sa sb sc e es hstep htrace ih =>
    intro hc i hi
    cases hstep with
    | taskWrite i0 hi0 =>
      cases i with
      | zero => simp at hi
      | succ j =>
        rcases ih hc j (by simpa using hi) with ⟨j0, hj0, hcev⟩
        exact ⟨j0 + 1, by omega, by simpa using hcev⟩
    | taskExit i0 hi0 hc0 =>
      rw [hc] at hc0
      exact Bool.noConfusion hc0
    | cancel h0 =>
      cases i with
      | zero => simp at hi
      | succ j => exact ⟨0, by omega, rfl⟩
    | ret hc2 hall hr0 =>
      rw [hc] at hc2
      exact Bool.noConfusion hc2

/-! ## Claim theorems -/

/-- Claim C1: for every list of query definitions and positive default
interval, `groupKPIsByFrequency` is a partition of the input: the
concatenation of all groups is a permutation of the input (no query dropped
or duplicated), keys are pairwise distinct, each query belongs to the group
keyed by its effective interval and to no other group, and the empty input
yields the empty map. -/
theorem groupKPIsByFrequency_partition (qs : List Query) (d : Int)
    (hd : 0 < d) :
    ((groupKPIsByFrequency qs d).map Prod.snd).flatten.Perm qs
    ∧ ((groupKPIsByFrequency qs d).map Prod.fst).Nodup
    ∧ (∀ q ∈ qs, ∃ g,
        (q.getEffectiveFrequency d, g) ∈ groupKPIsByFrequency qs d ∧ q ∈ g)
    ∧ (∀ q ∈ qs, ∀ k g, (k, g) ∈ groupKPIsByFrequency qs d →
        (q ∈ g ↔ k = q.getEffectiveFrequency d))
    ∧ groupKPIsByFrequency [] d = [] := by
  have hperm : ((groupKPIsByFrequency qs d).map Prod.snd).flatten.Perm qs := by
    have h := grouping_foldl_join_perm qs d []
    simpa [groupKPIsByFrequency] using h
  have hnodup : ((groupKPIsByFrequency qs d).map Prod.fst).Nodup := by
    have h := grouping_foldl_keys_nodup qs d [] (by simp)
    simpa [groupKPIsByFrequency] using h
  have hwf : ∀ p ∈ groupKPIsByFrequency qs d, ∀ x ∈ p.2,
      x.getEffectiveFrequency d = p.1 := by
    have h := grouping_foldl_wf qs d [] (by simp)
    simpa [groupKPIsByFrequency] using h
  have hex : ∀ q ∈ qs, ∃ g,
      (q.getEffectiveFrequency d, g) ∈ groupKPIsByFrequency qs d ∧ q ∈ g := by
    intro q hq
    have hmem : q ∈ ((groupKPIsByFrequency qs d).map Prod.snd).flatten :=
      hperm.mem_iff.mpr hq
    rcases List.mem_flatten.mp hmem with ⟨l, hl, hql⟩
    rcases List.mem_map.mp hl with ⟨p, hp, hpl⟩
    obtain ⟨k, g⟩ := p
    have hgl : g = l := hpl
    subst hgl
    have hk : q.getEffectiveFrequency d = k := hwf (k, g) hp q hql
    rw [hk]
    exact ⟨g, hp, hql⟩
  refine ⟨hperm, hnodup, hex, ?_, rfl⟩
  intro q hq k g hkg
  constructor
  · intro hqg
    exact (hwf (k, g) hkg q hqg).symm
  · intro hk
    rcases hex q hq with ⟨g0, hg0, hqg0⟩
    subst hk
    have hgg : g = g0 := groups_eq_of_nodup_keys hnodup hkg hg0
    rw [hgg]
    exact hqg0

theorem groupKPIsByFrequency_partition_witness :
    (0 : Int) < 60
    ∧ (((groupKPIsByFrequency
          [Query.mk "a" "up" (some 5), Query.mk "b" "up2" none] 60).map
          Prod.snd).flatten.Perm
        [Query.mk "a" "up" (some 5), Query.mk "b" "up2" none]
      ∧ ((groupKPIsByFrequency
          [Query.mk "a" "up" (some 5), Query.mk "b" "up2" none] 60).map
          Prod.fst).Nodup
      ∧ (∀ q ∈ [Query.mk "a" "up" (some 5), Query.mk "b" "up2" none], ∃ g,
          (q.getEffectiveFrequency 60, g)
            ∈ groupKPIsByFrequency
                [Query.mk "a" "up" (some 5), Query.mk "b" "up2" none] 60
          ∧ q ∈ g)
      ∧ (∀ q ∈ [Query.mk "a" "up" (some 5), Query.mk "b" "up2" none], ∀ k g,
          (k, g) ∈ groupKPIsByFrequency
              [Query.mk "a" "up" (some 5), Query.mk "b" "up2" none] 60 →
          (q ∈ g ↔ k = q.getEffectiveFrequency 60))
      ∧ groupKPIsByFrequency ([] : List Query) 60 = []) :=
  ⟨by norm_num,
    groupKPIsByFrequency_partition
      [Query.mk "a" "up" (some 5), Query.mk "b" "up2" none] 60 (by norm_num)⟩

/-- Claim C2 (counterexample): for the sub-second-granular interval 1.5s
(1500000000 ns) and duration 3s (3000000000 ns), the code yields 4 samples
while the claimed formula floor(duration / frequency) + 1 yields 3. -/
theorem calculateTotalSamples_subsecond_counterexample :
    calculateTotalSamples 1500000000 3000000000 = some 4
    ∧ 3000000000 / 1500000000 + 1 = 3 := by
  constructor
  · decide
  · decide

/-- Claim C2 (amended): when the effective interval is a positive whole number
of seconds, `calculateTotalSamples` equals floor(duration / frequency) + 1 for
every duration; in particular interval 10s with duration 45s yields exactly 5
(see the witness). -/
theorem calculateTotalSamples_eq_floor_add_one (s d : Nat) (hs : 0 < s) :
    calculateTotalSamples (s * nanosPerSecond) d
      = some (d / (s * nanosPerSecond) + 1) := by
  have hnps : 0 < nanosPerSecond := by norm_num [nanosPerSecond]
  have h1 : s * nanosPerSecond / nanosPerSecond = s :=
    Nat.mul_div_cancel s hnps
  simp only [calculateTotalSamples, h1]
  rw [if_neg (Nat.pos_iff_ne_zero.mp hs)]
  congr 1
  rw [Nat.div_div_eq_div_mul, Nat.mul_comm nanosPerSecond s]

theorem calculateTotalSamples_eq_floor_add_one_witness :
    0 < 10 ∧ calculateTotalSamples (10 * nanosPerSecond) 45000000000 = some 5 := by
  refine ⟨by norm_num, ?_⟩
  have h := calculateTotalSamples_eq_floor_add_one 10 45000000000 (by norm_num)
  simpa [nanosPerSecond] using h

/-- Claim C4: starting from a table with no counter row for the id, N calls
(N at least 1) of `IncrementQueryError` create the row at 1 on the first call
and add 1 each subsequent call, so `GetQueryErrorCount` returns exactly N. -/
theorem incrementQueryError_n_times (tbl : List (String × Nat)) (kpiID : String)
    (N : Nat) (h : hasErrorRow tbl kpiID = false) (hN : 1 ≤ N) :
    getQueryErrorCount (incrementQueryErrorN tbl kpiID 1) kpiID = 1
    ∧ hasErrorRow (incrementQueryErrorN tbl kpiID 1) kpiID = true
    ∧ getQueryErrorCount (incrementQueryErrorN tbl kpiID N) kpiID = N := by
  have h0 := getQueryErrorCount_eq_zero_of_no_row tbl kpiID h
  refine ⟨?_, ?_, ?_⟩
  · rw [getQueryErrorCount_incrementN, h0]
  · simpa [incrementQueryErrorN] using hasErrorRow_increment tbl kpiID
  · rw [getQueryErrorCount_incrementN, h0]
    omega

theorem incrementQueryError_n_times_witness :
    hasErrorRow [("other", 7)] "kpi-a" = false ∧ 1 ≤ 3
    ∧ getQueryErrorCount (incrementQueryErrorN [("other", 7)] "kpi-a" 1) "kpi-a" = 1
    ∧ hasErrorRow (incrementQueryErrorN [("other", 7)] "kpi-a" 1) "kpi-a" = true
    ∧ getQueryErrorCount (incrementQueryErrorN [("other", 7)] "kpi-a" 3) "kpi-a" = 3 := by
  have h := incrementQueryError_n_times [("other", 7)] "kpi-a" 3 (by decide) (by decide)
  exact ⟨by decide, by decide, h.1, h.2.1, h.2.2⟩

/-- Claim C5: for a table satisfying the unique-name constraint, two
successive `GetOrCreateCluster` calls with the same name return the same id
and leave exactly one row with that name, for both the SQLite and the
Postgres implementation. -/
theorem getOrCreateCluster_idempotent (t : ClustersTable) (clusterName : String)
    (huniq : countClusterName t.rows clusterName ≤ 1) :
    ((GetOrCreateCluster t clusterName).1
        = (GetOrCreateCluster (GetOrCreateCluster t clusterName).2 clusterName).1
      ∧ countClusterName
          (GetOrCreateCluster (GetOrCreateCluster t clusterName).2 clusterName).2.rows
          clusterName = 1)
    ∧ ((PostgresDB_GetOrCreateCluster t clusterName).1
        = (PostgresDB_GetOrCreateCluster
            (PostgresDB_GetOrCreateCluster t clusterName).2 clusterName).1
      ∧ countClusterName
          (PostgresDB_GetOrCreateCluster
            (PostgresDB_GetOrCreateCluster t clusterName).2 clusterName).2.rows
          clusterName = 1) := by
  cases hsel : selectClusterId t.rows clusterName with
  | some cid =>
    have hge := countClusterName_pos_of_select_some t.rows clusterName cid hsel
    have hcount : countClusterName t.rows clusterName = 1 := le_antisymm huniq hge
    constructor
    · simp [GetOrCreateCluster, hsel, hcount]
    · simp [PostgresDB_GetOrCreateCluster, hsel, hcount]
  | none =>
    have h0 := countClusterName_eq_zero_of_select_none t.rows clusterName hsel
    have hsel2 := selectClusterId_append_self t.rows clusterName t.nextId hsel
    have hcnt := countClusterName_append t.rows clusterName t.nextId
    constructor
    · simp [GetOrCreateCluster, hsel, hsel2, hcnt, h0]
    · simp [PostgresDB_GetOrCreateCluster, hsel, hsel2, hcnt, h0]

theorem getOrCreateCluster_idempotent_witness :
    countClusterName (ClustersTable.mk [] 1).rows "prod-cluster" ≤ 1
    ∧ ((GetOrCreateCluster (ClustersTable.mk [] 1) "prod-cluster").1
        = (GetOrCreateCluster
            (GetOrCreateCluster (ClustersTable.mk [] 1) "prod-cluster").2
            "prod-cluster").1
      ∧ countClusterName
          (GetOrCreateCluster
            (GetOrCreateCluster (ClustersTable.mk [] 1) "prod-cluster").2
            "prod-cluster").2.rows "prod-cluster" = 1)
    ∧ ((PostgresDB_GetOrCreateCluster (ClustersTable.mk [] 1) "prod-cluster").1
        = (PostgresDB_GetOrCreateCluster
            (PostgresDB_GetOrCreateCluster (ClustersTable.mk [] 1) "prod-cluster").2
            "prod-cluster").1
      ∧ countClusterName
          (PostgresDB_GetOrCreateCluster
            (PostgresDB_GetOrCreateCluster (ClustersTable.mk [] 1) "prod-cluster").2
            "prod-cluster").2.rows "prod-cluster" = 1) :=
  ⟨by decide, getOrCreateCluster_idempotent (ClustersTable.mk [] 1) "prod-cluster" (by decide)⟩

/-- Claim C8: the effective sampling interval is the override when present and
positive, and the default otherwise (absent, zero, or negative override), with
no failure mode. -/
theorem getEffectiveFrequency_spec (q : Query) (defaultFreq : Int)
    (hd : 0 < defaultFreq) :
    (∀ f, q.sampleFrequency = some f → 0 < f →
      q.getEffectiveFrequency defaultFreq = f)
    ∧ (q.sampleFrequency = none →
      q.getEffectiveFrequency defaultFreq = defaultFreq)
    ∧ (∀ f, q.sampleFrequency = some f → f ≤ 0 →
      q.getEffectiveFrequency defaultFreq = defaultFreq) := by
  refine ⟨?_, ?_, ?_⟩
  · intro f hf hpos
    simp [Query.getEffectiveFrequency, hf, hpos]
  · intro hf
    simp [Query.getEffectiveFrequency, hf]
  · intro f hf hnonpos
    have : ¬(f > 0) := by omega
    simp [Query.getEffectiveFrequency, hf, this]

theorem getEffectiveFrequency_spec_witness :
    (0 : Int) < 60
    ∧ ((∀ f, (Query.mk "a" "up" (some 30)).sampleFrequency = some f → 0 < f →
        (Query.mk "a" "up" (some 30)).getEffectiveFrequency 60 = f)
      ∧ ((Query.mk "a" "up" (some 30)).sampleFrequency = none →
        (Query.mk "a" "up" (some 30)).getEffectiveFrequency 60 = 60)
      ∧ (∀ f, (Query.mk "a" "up" (some 30)).sampleFrequency = some f → f ≤ 0 →
        (Query.mk "a" "up" (some 30)).getEffectiveFrequency 60 = 60)) :=
  ⟨by norm_num, getEffectiveFrequency_spec (Query.mk "a" "up" (some 30)) 60 (by norm_num)⟩

/-- Claim C3 (counterexample): the backends do not behave identically for an
existing cluster and a non-empty category. On the concrete store holding
cluster "c" with category "old", the SQLite backend rewrites the stored
category to "new", while the Postgres backend, whose GetOrCreateCluster takes
no category and whose rows carry none, leaves its store entirely unchanged. -/
theorem getOrCreateCluster_category_backends_differ :
    (SQLiteDB_GetOrCreateCluster
        (SqliteClustersTable.mk [SqliteClusterRow.mk 1 "c" "old"] 2) "c" "new").2.rows
      = [SqliteClusterRow.mk 1 "c" "new"]
    ∧ (SQLiteDB_GetOrCreateCluster
        (SqliteClustersTable.mk [SqliteClusterRow.mk 1 "c" "old"] 2) "c" "new").2
      ≠ SqliteClustersTable.mk [SqliteClusterRow.mk 1 "c" "old"] 2
    ∧ PostgresDB_GetOrCreateCluster (ClustersTable.mk [ClusterRow.mk 1 "c"] 2) "c"
      = (1, ClustersTable.mk [ClusterRow.mk 1 "c"] 2) := by
  refine ⟨by decide, by decide, by decide⟩

/-- Claim C3 (amended): for the SQLite backend, calling GetOrCreateCluster on
an existing cluster name with a non-empty category returns the stored id and
updates the stored category of every row with that id to the supplied value;
the Postgres backend has no category support and performs no update. -/
theorem sqlite_getOrCreateCluster_updates_category (t : SqliteClustersTable)
    (clusterName clusterType : String) (cid : Int)
    (hfound : selectSqliteClusterId t.rows clusterName = some cid)
    (hne : clusterType ≠ "") :
    (SQLiteDB_GetOrCreateCluster t clusterName clusterType).1 = cid
    ∧ (∃ r ∈ (SQLiteDB_GetOrCreateCluster t clusterName clusterType).2.rows,
        r.id = cid ∧ r.clusterType = clusterType)
    ∧ (∀ r ∈ (SQLiteDB_GetOrCreateCluster t clusterName clusterType).2.rows,
        r.id = cid → r.clusterType = clusterType)
    ∧ (∀ t0 : ClustersTable, ∀ cid0,
        selectClusterId t0.rows clusterName = some cid0 →
        PostgresDB_GetOrCreateCluster t0 clusterName = (cid0, t0)) := by
  have hres : SQLiteDB_GetOrCreateCluster t clusterName clusterType
      = (cid, { t with rows := updateClusterType t.rows cid clusterType }) := by
    simp [SQLiteDB_GetOrCreateCluster, hfound, hne]
  refine ⟨by rw [hres], ?_, ?_, ?_⟩
  · rcases selectSqliteClusterId_mem t.rows clusterName cid hfound
      with ⟨r, hr, hid, _⟩
    refine ⟨{ r with clusterType := clusterType }, ?_, hid, rfl⟩
    rw [hres]
    exact updateClusterType_mem t.rows cid clusterType r hr hid
  · intro r hr hid
    rw [hres] at hr
    exact updateClusterType_all t.rows cid clusterType r hr hid
  · intro t0 cid0 h0
    simp [PostgresDB_GetOrCreateCluster, h0]

theorem sqlite_getOrCreateCluster_updates_category_witness :
    selectSqliteClusterId
        (SqliteClustersTable.mk [SqliteClusterRow.mk 1 "c" "old"] 2).rows "c"
      = some 1
    ∧ ("new" : String) ≠ ""
    ∧ ((SQLiteDB_GetOrCreateCluster
          (SqliteClustersTable.mk [SqliteClusterRow.mk 1 "c" "old"] 2)
          "c" "new").1 = 1
      ∧ (∃ r ∈ (SQLiteDB_GetOrCreateCluster
          (SqliteClustersTable.mk [SqliteClusterRow.mk 1 "c" "old"] 2)
          "c" "new").2.rows, r.id = 1 ∧ r.clusterType = "new")
      ∧ (∀ r ∈ (SQLiteDB_GetOrCreateCluster
          (SqliteClustersTable.mk [SqliteClusterRow.mk 1 "c" "old"] 2)
          "c" "new").2.rows, r.id = 1 → r.clusterType = "new")
      ∧ (∀ t0 : ClustersTable, ∀ cid0,
          selectClusterId t0.rows "c" = some cid0 →
          PostgresDB_GetOrCreateCluster t0 "c" = (cid0, t0))) :=
  ⟨by decide, by decide,
    sqlite_getOrCreateCluster_updates_category
      (SqliteClustersTable.mk [SqliteClusterRow.mk 1 "c" "old"] 2)
      "c" "new" 1 (by decide) (by decide)⟩

/-- Claim C6: storing a vector sample writes its label set serialized as a
JSON object (sorted keys, Go escaping), and deserializing that stored text
yields exactly the original mapping: the parse succeeds and returns the
key-sorted pairs, a permutation of the original pair list with the same
members and still-distinct keys. -/
theorem storeQueryResults_labels_roundtrip (rows : List QueryResultRow)
    (clusterID : Int) (queryID : String) (s : PromSample)
    (hnodup : (s.metric.map Prod.fst).Nodup) :
    StoreQueryResults rows clusterID queryID (PromValue.vector [s])
      = some (rows ++ [⟨queryID, s.value, (s.timestampMs : Rat) / 1000,
          clusterID, marshalLabels s.metric⟩])
    ∧ parseLabels (marshalLabels s.metric) = some (sortPairsByKey s.metric)
    ∧ (sortPairsByKey s.metric).Perm s.metric
    ∧ (∀ kv, kv ∈ sortPairsByKey s.metric ↔ kv ∈ s.metric)
    ∧ ((sortPairsByKey s.metric).map Prod.fst).Nodup := by
  have hperm := sortPairsByKey_perm s.metric
  refine ⟨rfl, parseLabels_marshalLabels s.metric, hperm,
    fun kv => hperm.mem_iff, ?_⟩
  exact ((hperm.map Prod.fst).nodup_iff).mpr hnodup

theorem storeQueryResults_labels_roundtrip_witness :
    ((PromSample.mk [("pod", "x"), ("ns", "y")] 1 0).metric.map Prod.fst).Nodup
    ∧ (parseLabels (marshalLabels [("pod", "x"), ("ns", "y")])
        = some (sortPairsByKey [("pod", "x"), ("ns", "y")])
      ∧ (sortPairsByKey [("pod", "x"), ("ns", "y")]).Perm
          [("pod", "x"), ("ns", "y")]) :=
  ⟨by decide,
    ⟨(storeQueryResults_labels_roundtrip [] 1 "q"
        (PromSample.mk [("pod", "x"), ("ns", "y")] 1 0) (by decide)).2.1,
      (storeQueryResults_labels_roundtrip [] 1 "q"
        (PromSample.mk [("pod", "x"), ("ns", "y")] 1 0) (by decide)).2.2.1⟩⟩

/-- Claim C10: StoreQueryResults crashes (unchecked type assertion) on every
non-vector result value, and returns normally exactly on vectors, appending
one row per sample and zero rows for an empty vector. -/
theorem storeQueryResults_vector_only (rows : List QueryResultRow)
    (clusterID : Int) (queryID : String) :
    (∀ result : PromValue, (∀ samples, result ≠ PromValue.vector samples) →
      StoreQueryResults rows clusterID queryID result = none)
    ∧ (∀ samples,
        StoreQueryResults rows clusterID queryID (PromValue.vector samples)
          = some (rows ++ samples.map (fun s =>
              ⟨queryID, s.value, (s.timestampMs : Rat) / 1000, clusterID,
                marshalLabels s.metric⟩)))
    ∧ (∀ samples st2,
        StoreQueryResults rows clusterID queryID (PromValue.vector samples)
          = some st2 → st2.length = rows.length + samples.length)
    ∧ StoreQueryResults rows clusterID queryID (PromValue.vector []) = some rows := by
  refine ⟨?_, ?_, ?_, by simp [StoreQueryResults]⟩
  · intro result hne
    cases result with
    | vector samples => exact absurd rfl (hne samples)
    | matrix => rfl
    | scalar => rfl
    | strValue => rfl
  · intro samples
    rfl
  · intro samples st2 h
    simp only [StoreQueryResults, Option.some.injEq] at h
    rw [← h]
    simp

theorem storeQueryResults_vector_only_witness :
    StoreQueryResults [] 1 "q" PromValue.matrix = none
    ∧ StoreQueryResults [] 1 "q" (PromValue.vector []) = some [] :=
  ⟨(storeQueryResults_vector_only [] 1 "q").1 PromValue.matrix
      (fun _ h => PromValue.noConfusion h),
    (storeQueryResults_vector_only [] 1 "q").2.2.2⟩

/-- Claim C7: a query whose execution fails gets its error counter
incremented, has no sample-result rows written on that tick, and the batch
continues with the remaining queries — the failure never aborts the batch. -/
theorem executeQuery_failure_isolated (env : String → Except String PromValue)
    (st : DBState) (clusterID : Int) (q : Query) (post : List Query)
    (msg : String) (herr : env q.promQuery = Except.error msg) :
    executeQuery env st clusterID q
      = some { st with queryErrors := incrementQueryError st.queryErrors q.id }
    ∧ (∀ st2, executeQuery env st clusterID q = some st2 →
        st2.queryResults = st.queryResults
        ∧ getQueryErrorCount st2.queryErrors q.id
            = getQueryErrorCount st.queryErrors q.id + 1)
    ∧ RunQueries env st clusterID (q :: post)
      = RunQueries env
          { st with queryErrors := incrementQueryError st.queryErrors q.id }
          clusterID post := by
  have h1 : executeQuery env st clusterID q
      = some { st with queryErrors := incrementQueryError st.queryErrors q.id } := by
    simp [executeQuery, herr]
  refine ⟨h1, ?_, ?_⟩
  · intro st2 h2
    rw [h1] at h2
    injection h2 with h2
    rw [← h2]
    exact ⟨rfl, getQueryErrorCount_increment st.queryErrors q.id⟩
  · simp [RunQueries, h1]

theorem executeQuery_failure_isolated_witness :
    (fun _ : String => (Except.error "timeout" : Except String PromValue))
        (Query.mk "qa" "up" none).promQuery = Except.error "timeout"
    ∧ (executeQuery (fun _ => Except.error "timeout") (DBState.mk [] []) 1
          (Query.mk "qa" "up" none)
        = some (DBState.mk (incrementQueryError [] "qa") [])
      ∧ (∀ st2, executeQuery (fun _ => Except.error "timeout")
            (DBState.mk [] []) 1 (Query.mk "qa" "up" none) = some st2 →
          st2.queryResults = (DBState.mk [] []).queryResults
          ∧ getQueryErrorCount st2.queryErrors "qa"
              = getQueryErrorCount ([] : List (String × Nat)) "qa" + 1)
      ∧ RunQueries (fun _ => Except.error "timeout") (DBState.mk [] []) 1
            [Query.mk "qa" "up" none, Query.mk "qb" "up2" none]
        = RunQueries (fun _ => Except.error "timeout")
            (DBState.mk (incrementQueryError [] "qa") []) 1
            [Query.mk "qb" "up2" none]) :=
  ⟨rfl,
    executeQuery_failure_isolated (fun _ => Except.error "timeout")
      (DBState.mk [] []) 1 (Query.mk "qa" "up" none)
      [Query.mk "qb" "up2" none] "timeout" rfl⟩

/-- Claim C9: in every execution of the scheduler system starting from the
post-start state, if the controller has returned then every per-group task
has exited; and every return event is preceded by a cancel event and by
every storage write of every task — no task writes to storage after `Run`
returns. -/
theorem run_shutdown_drain (n : Nat) (es : List RunEvent) (sfin : RunState)
    (h : RunTrace (initRunState n) es sfin) :
    (sfin.returned = true → ∀ p ∈ sfin.tasks, p = TaskPhase.exited)
    ∧ (∀ i, es.get? i = some RunEvent.ret →
        (∃ j, j < i ∧ es.get? j = some RunEvent.cancel)
        ∧ (∀ k t, es.get? k = some (RunEvent.taskWrite t) → k < i)) := by
  have hwf0 : RunStateWF (initRunState n) := by
    intro hr
    simp [initRunState] at hr
  constructor
  · intro hr
    exact (runTrace_wf _ _ _ h hwf0 hr).2
  · intro i hi
    constructor
    · exact runTrace_cancel_before_ret _ _ _ h (by simp [initRunState]) i hi
    · intro k t hk
      have hlen := runTrace_ret_last _ _ _ h hwf0 i hi
      have hklen : k < es.length := by
        by_contra hge
        push_neg at hge
        rw [List.get?_eq_none.mpr hge] at hk
        exact Option.noConfusion hk
      have hne : k ≠ i := by
        intro hki
        subst hki
        rw [hi] at hk
        injection hk with hk2
        exact RunEvent.noConfusion hk2
      omega

theorem run_shutdown_drain_witness :
    ((RunState.mk true true [TaskPhase.exited]).returned = true →
      ∀ p ∈ (RunState.mk true true [TaskPhase.exited]).tasks,
        p = TaskPhase.exited)
    ∧ (∀ i, [RunEvent.cancel, RunEvent.taskExit 0, RunEvent.ret].get? i
          = some RunEvent.ret →
        (∃ j, j < i
          ∧ [RunEvent.cancel, RunEvent.taskExit 0, RunEvent.ret].get? j
              = some RunEvent.cancel)
        ∧ (∀ k t, [RunEvent.cancel, RunEvent.taskExit 0, RunEvent.ret].get? k
              = some (RunEvent.taskWrite t) → k < i)) :=
  run_shutdown_drain 1 [RunEvent.cancel, RunEvent.taskExit 0, RunEvent.ret]
    (RunState.mk true true [TaskPhase.exited])
    (RunTrace.cons _ _ _ _ _ (RunStep.cancel _ rfl)
      (RunTrace.cons _ _ _ _ _ (RunStep.taskExit _ 0 rfl rfl)
        (RunTrace.cons _ _ _ _ _ (RunStep.ret _ rfl (by decide) rfl)
          (RunTrace.nil _))))

end KPICollector
